import Mathlib

/-!
Verification of the expression codec and operation deserializers of
`cirq_google.serialization` (`arg_func_langs.py`, `op_deserializer.py`).

Python values are embedded as follows: in-memory argument values
(`ARG_LIKE`: int, float, str, list of bool, `sympy.Symbol`, `sympy.Add`,
`sympy.Mul`, `sympy.Pow`) become the inductive `ArgLike`, with sympy
expression nodes modelled as free finite trees (operand order significant,
no algebraic simplification); floats are idealized as rationals; the wire
`Arg` proto becomes `ArgProto`, with an explicit `unset` state for an unset
oneof.  Exceptions become the error enum `SerErr`, one constructor per
distinct raise site kind, and functions that can raise return `Except`.
Because `arg_to_proto` mutates the output proto message it is given, the
encoder is modelled in state-passing style: it returns the final message
state together with the raised error, if any.

The bodies of the helpers `_arg_func_to_proto` and `_arg_func_from_proto`
are inlined into their unique callers (`arg_to_proto` / `arg_from_proto`),
preserving the order of the language check, the operator-permission check
and the operand recursion; this keeps the recursion structural.
-/

/-- Typed errors. Each constructor corresponds to a family of `raise`
sites in the source (`ValueError`s, except `indexError`, which models a
Python `IndexError` from a bare out-of-range list subscript). -/
inductive SerErr where
  /-- encode: `Function type {f} not supported by arg_function_language`. -/
  | unsupportedOperator (op : String)
  /-- encode/decode: `Unrecognized arg_function_language`. -/
  | unrecognizedLanguage
  /-- decode: `Unrecognized function type {f} for arg_function_language`. -/
  | unrecognizedFunction (op : String)
  /-- gate deserializer: `Argument {name} not in deserializing args, but is required.` -/
  | missingRequiredArgument (name : String)
  /-- decode: `Unrecognized value type` (inner `arg_value` oneof unset). -/
  | unrecognizedArgValueType
  /-- decode: `{name} is missing or has an unrecognized argument type`. -/
  | missingOrUnrecognized (name : String)
  /-- decode: a `None` operand reaching a sympy constructor; unreachable
  because operands are decoded with `required_arg_name` set. -/
  | invalidOperand (name : String)
  /-- gate deserializer: `Proto has references to constants table but none was passed in`. -/
  | missingConstantTable
  /-- Python `IndexError` from `constants[proto.token_constant_index]`. -/
  | indexError
  /-- circuit deserializer: `CircuitOp deserialization requires a constants list ...`. -/
  | missingConstantContext
  /-- circuit deserializer: `Constant index {i} ... does not appear in the deserialized_constants list`. -/
  | constantIndexOutOfRange
  /-- circuit deserializer: `Constant at index {i} was expected to be a circuit`. -/
  | wrongConstantKind
  /-- circuit deserializer: `Invalid key parameter type in deserialized CircuitOperation`. -/
  | invalidMapKey
  /-- circuit deserializer: `Invalid value parameter type in deserialized CircuitOperation`. -/
  | invalidMapValue
  deriving DecidableEq, Repr

/-- In-memory argument values (`ARG_LIKE`). `intVal`/`floatVal` model the
Python `int`/`float` (and exact sympy number) cases, `add`/`mul`/`pow`
model `sympy.Add`/`sympy.Mul`/`sympy.Pow` as free n-ary nodes. -/
inductive ArgLike where
  | intVal (n : ℤ)
  | floatVal (q : ℚ)
  | strVal (s : String)
  | boolList (bs : List Bool)
  | symbol (name : String)
  | add (args : List ArgLike)
  | mul (args : List ArgLike)
  | pow (args : List ArgLike)

/-- The inner `arg_value` oneof of the wire `Arg` proto
(float_value | double_value | bool_values | string_value). -/
inductive ArgValueProto where
  | floatValue (q : ℚ)
  | doubleValue (q : ℚ)
  | boolValues (bs : List Bool)
  | stringValue (s : String)
  /-- `arg_value` set but its inner oneof unset (`WhichOneof` returns `None`). -/
  | unsetValue

/-- The wire `Arg` proto: oneof arg_value | symbol | func, or unset.
The `func` submessage (`ArgFunction`: a `type` tag and repeated operand
`Arg`s) is inlined into the `func` constructor. -/
inductive ArgProto where
  | argValue (v : ArgValueProto)
  | symbol (s : String)
  | func (ftype : String) (args : List ArgProto)
  | unset

/-- `SUPPORTED_FUNCTIONS_FOR_LANGUAGE`: the permitted function operators
per language tier; `none` (Python `None`) means any, used during
inference.  Result `none` models a key that is not in the dict. -/
def SUPPORTED_FUNCTIONS_FOR_LANGUAGE (lang : Option String) : Option (List String) :=
  match lang with
  | some "" => some []
  | some "linear" => some ["add", "mul"]
  | some "exp" => some ["add", "mul", "pow"]
  | none => some ["add", "mul", "pow"]
  | _ => none

def MOST_PERMISSIVE_LANGUAGE : String := "exp"

/-- Supported function languages in order from least to most flexible. -/
def LANGUAGE_ORDER : List String := ["", "linear", "exp"]

/-- `msg.func.args` just before `msg.func.type` is assigned: proto
semantics keep an already-populated `func.args` list. -/
def priorFuncArgs : ArgProto → List ArgProto
  | .func _ args => args
  | _ => []

mutual

/-- `arg_to_proto(value, arg_function_language, out)`, state-passing:
returns the final state of the output message together with the raised
error, if any.  Numbers, strings and boolean lists are written directly;
for symbols and function trees the body of `_arg_func_to_proto` is
inlined: the language is validated first, then for a function node the
operator is checked against the permitted set before any operand is
encoded (`msg.func.type = check_support(...)`); each operand is then
encoded into a freshly appended empty sub-message, so a failing operand
leaves the earlier operands (and the empty appended sub-message) behind
in the final state. -/
def arg_to_proto_st (value : ArgLike) (arg_function_language : Option String)
    (out : ArgProto) : ArgProto × Option SerErr :=
  match value with
  | .intVal n => (.argValue (.floatValue (n : ℚ)), none)
  | .floatVal q => (.argValue (.floatValue q), none)
  | .strVal s => (.argValue (.stringValue s), none)
  | .boolList bs => (.argValue (.boolValues bs), none)
  | .symbol name =>
    match SUPPORTED_FUNCTIONS_FOR_LANGUAGE arg_function_language with
    | none => (out, some .unrecognizedLanguage)
    | some _ => (.symbol name, none)
  | .add args =>
    match SUPPORTED_FUNCTIONS_FOR_LANGUAGE arg_function_language with
    | none => (out, some .unrecognizedLanguage)
    | some supported =>
      if "add" ∈ supported then
        let r := argListToProtoSt args arg_function_language
        (.func "add" (priorFuncArgs out ++ r.1), r.2)
      else (out, some (.unsupportedOperator "add"))
  | .mul args =>
    match SUPPORTED_FUNCTIONS_FOR_LANGUAGE arg_function_language with
    | none => (out, some .unrecognizedLanguage)
    | some supported =>
      if "mul" ∈ supported then
        let r := argListToProtoSt args arg_function_language
        (.func "mul" (priorFuncArgs out ++ r.1), r.2)
      else (out, some (.unsupportedOperator "mul"))
  | .pow args =>
    match SUPPORTED_FUNCTIONS_FOR_LANGUAGE arg_function_language with
    | none => (out, some .unrecognizedLanguage)
    | some supported =>
      if "pow" ∈ supported then
        let r := argListToProtoSt args arg_function_language
        (.func "pow" (priorFuncArgs out ++ r.1), r.2)
      else (out, some (.unsupportedOperator "pow"))

/-- The operand loop of `_arg_func_to_proto`: each operand is encoded into
a fresh empty message appended to `func.args`; the loop stops at the first
error, keeping everything written so far. -/
def argListToProtoSt (args : List ArgLike) (arg_function_language : Option String) :
    List ArgProto × Option SerErr :=
  match args with
  | [] => ([], none)
  | a :: rest =>
    let r := arg_to_proto_st a arg_function_language .unset
    match r.2 with
    | some e => ([r.1], some e)
    | none =>
      let rr := argListToProtoSt rest arg_function_language
      (r.1 :: rr.1, rr.2)

end

/-- `arg_to_proto` with a fresh output message (`out=None`), viewed as a
fallible function: the message is returned only when no error was raised. -/
def arg_to_proto (value : ArgLike) (arg_function_language : Option String) :
    Except SerErr ArgProto :=
  match arg_to_proto_st value arg_function_language .unset with
  | (m, none) => .ok m
  | (_, some e) => .error e

mutual

/-- `arg_from_proto(arg_proto, arg_function_language, required_arg_name)`.
Returns `ok none` for an unset value when no `required_arg_name` is
supplied.  A decoded float is normalized to the integer form when
`math.ceil(result) == math.floor(result)`, i.e. when the rational has
denominator 1.  For a function record the body of `_arg_func_from_proto`
is inlined: the language must be a key of
`SUPPORTED_FUNCTIONS_FOR_LANGUAGE` and the function type a member of its
permitted set (re-validated on decode); operands are then decoded
recursively, each with a `required_arg_name` naming the operator, and
handed to the free `add`/`mul`/`pow` constructor.  The final fall-through
(the source's trailing `return None`, unreachable for the dict's actual
permitted sets) rejoins the caller's handling of a `None` function
result. -/
def arg_from_proto (arg_proto : ArgProto) (arg_function_language : String)
    (required_arg_name : Option String) : Except SerErr (Option ArgLike) :=
  match arg_proto with
  | .argValue v =>
    match v with
    | .floatValue q =>
      if q.den = 1 then .ok (some (.intVal q.num)) else .ok (some (.floatVal q))
    | .doubleValue q =>
      if q.den = 1 then .ok (some (.intVal q.num)) else .ok (some (.floatVal q))
    | .boolValues bs => .ok (some (.boolList bs))
    | .stringValue s => .ok (some (.strVal s))
    | .unsetValue => .error .unrecognizedArgValueType
  | .symbol s => .ok (some (.symbol s))
  | .func ftype args =>
    match SUPPORTED_FUNCTIONS_FOR_LANGUAGE (some arg_function_language) with
    | none => .error .unrecognizedLanguage
    | some supported =>
      if ftype ∉ supported then .error (.unrecognizedFunction ftype)
      else if ftype = "add" then
        match argListFromProto args arg_function_language "An addition argument" with
        | .error e => .error e
        | .ok l => .ok (some (.add l))
      else if ftype = "mul" then
        match argListFromProto args arg_function_language "A multiplication argument" with
        | .error e => .error e
        | .ok l => .ok (some (.mul l))
      else if ftype = "pow" then
        match argListFromProto args arg_function_language "A power argument" with
        | .error e => .error e
        | .ok l => .ok (some (.pow l))
      else
        match required_arg_name with
        | some name => .error (.missingOrUnrecognized name)
        | none => .ok none
  | .unset =>
    match required_arg_name with
    | some name => .error (.missingOrUnrecognized name)
    | none => .ok none

/-- The operand list comprehension of `_arg_func_from_proto`: decodes each
operand with the given `required_arg_name`, stopping at the first error.
The `ok none` case cannot occur with a required name set; in the source a
`None` operand would fault inside the sympy constructor. -/
def argListFromProto (args : List ArgProto) (arg_function_language : String)
    (required_arg_name : String) : Except SerErr (List ArgLike) :=
  match args with
  | [] => .ok []
  | a :: rest =>
    match arg_from_proto a arg_function_language (some required_arg_name) with
    | .error e => .error e
    | .ok none => .error (.invalidOperand required_arg_name)
    | .ok (some v) =>
      match argListFromProto rest arg_function_language required_arg_name with
      | .error e => .error e
      | .ok l => .ok (v :: l)

end

/-! ## Tier inference (`_max_lang`, `_infer_function_language_from_circuit`) -/

/-- `_max_lang(langs)`: index of the most flexible language appearing,
via `LANGUAGE_ORDER.index` (`max(..., default=0)`).  The source raises
for a string outside `LANGUAGE_ORDER`; inference only ever yields
`"linear"`/`"exp"`, for which `List.indexOf` agrees with Python. -/
def _max_lang (langs : List String) : String :=
  let i := (langs.map (fun e => LANGUAGE_ORDER.indexOf e)).foldl max 0
  LANGUAGE_ORDER.getD i ""

mutual

/-- `_function_languages_from_arg`: yields `"linear"` for an `add`/`mul`
function node and `"exp"` for a `pow` node, recursing into operands in
both cases; any other shape (including a function node with an
unrecognized type tag) yields nothing and is not recursed into. -/
def _function_languages_from_arg (arg_proto : ArgProto) : List String :=
  match arg_proto with
  | .func ftype args =>
    (if ftype = "add" ∨ ftype = "mul" then "linear" :: functionLanguagesFromArgList args
     else []) ++
    (if ftype = "pow" then "exp" :: functionLanguagesFromArgList args else [])
  | _ => []

/-- The operand loop of `_function_languages_from_arg`. -/
def functionLanguagesFromArgList (args : List ArgProto) : List String :=
  match args with
  | [] => []
  | a :: rest => _function_languages_from_arg a ++ functionLanguagesFromArgList rest

end

/-- The `token` oneof of an `Operation` proto. -/
inductive TokenField where
  | tokenValue (s : String)
  | tokenConstantIndex (n : ℕ)
  | unset
  deriving DecidableEq, Repr

/-- The wire `Operation` proto: qubit ids, the named-argument map
(modelled as an association list in insertion order) and the optional
calibration-token reference. -/
structure OperationProto where
  qubits : List String
  args : List (String × ArgProto)
  token : TokenField := .unset

structure MomentProto where
  operations : List OperationProto

structure CircuitProto where
  moments : List MomentProto

/-- `_function_languages_from_operation`: the languages of every value of
the operation's `args` map. -/
def _function_languages_from_operation (op : OperationProto) : List String :=
  functionLanguagesFromArgList (op.args.map Prod.snd)

/-- `_infer_function_language_from_circuit`: `_max_lang` over the
languages of every operation of every moment (the source collects them
into a set; duplicates and order do not affect the maximum). -/
def _infer_function_language_from_circuit (value : CircuitProto) : String :=
  _max_lang
    (((value.moments.map MomentProto.operations).flatten.map
        _function_languages_from_operation).flatten)

/-! ## Field specifications and the gate-operation deserializer
(`op_deserializer.py`) -/

/-- `DeserializingArg`.  `value_func` receives the decoded value, which
may be `None`, and may return anything (restricted here to argument
values). -/
structure DeserializingArg where
  serialized_name : String
  constructor_arg_name : String
  value_func : Option (Option ArgLike → Option ArgLike) := none
  required : Bool := true
  default : Option ArgLike := none

/-- Python truthiness of an argument value (`if arg.default:`): zero
numbers, the empty string and the empty list are falsy; symbol and
function objects are truthy. -/
def pyTruthy : ArgLike → Bool
  | .intVal n => decide (n ≠ 0)
  | .floatVal q => decide (q ≠ 0)
  | .strVal s => decide (s ≠ "")
  | .boolList bs => !bs.isEmpty
  | .symbol _ => true
  | .add _ => true
  | .mul _ => true
  | .pow _ => true

/-- Lookup in the `proto.args` map. -/
def lookupArg (args : List (String × ArgProto)) (name : String) : Option ArgProto :=
  (args.find? (fun p => p.1 == name)).map Prod.snd

/-- The tail of one iteration of `_args_from_proto`'s loop: decode the
wire argument (an absent map key reads as an auto-inserted empty `Arg`,
i.e. `unset`), apply `value_func` if present, and contribute a
constructor argument unless the final value is `None`. -/
def deserArgValue (arg : DeserializingArg) (p : ArgProto) (arg_function_language : String) :
    Except SerErr (Option (String × ArgLike)) :=
  match arg_from_proto p arg_function_language
      (if arg.required then some arg.serialized_name else none) with
  | .error e => .error e
  | .ok v0 =>
    let v := match arg.value_func with
      | some f => f v0
      | none => v0
    match v with
    | some vv => .ok (some (arg.constructor_arg_name, vv))
    | none => .ok none

/-- One iteration of `_args_from_proto`'s loop.  When the serialized name
is absent from the wire map: a truthy default is used directly
(`if arg.default:`), otherwise a required argument raises, and otherwise
the code falls through to decode the auto-inserted empty `Arg`. -/
def deserArgStep (arg : DeserializingArg) (protoArgs : List (String × ArgProto))
    (arg_function_language : String) : Except SerErr (Option (String × ArgLike)) :=
  match lookupArg protoArgs arg.serialized_name with
  | none =>
    match arg.default with
    | some d =>
      if pyTruthy d then .ok (some (arg.constructor_arg_name, d))
      else if arg.required then .error (.missingRequiredArgument arg.serialized_name)
      else deserArgValue arg .unset arg_function_language
    | none =>
      if arg.required then .error (.missingRequiredArgument arg.serialized_name)
      else deserArgValue arg .unset arg_function_language
  | some p => deserArgValue arg p arg_function_language

/-- `GateOpDeserializer._args_from_proto`: the constructor-argument
record built from the field specifications (the Python dict keyed by
`constructor_arg_name` is modelled as an association list in insertion
order). -/
def _args_from_proto (specs : List DeserializingArg)
    (protoArgs : List (String × ArgProto)) (arg_function_language : String) :
    Except SerErr (List (String × ArgLike)) :=
  match specs with
  | [] => .ok []
  | arg :: rest =>
    match deserArgStep arg protoArgs arg_function_language with
    | .error e => .error e
    | .ok none => _args_from_proto rest protoArgs arg_function_language
    | .ok (some kv) =>
      match _args_from_proto rest protoArgs arg_function_language with
      | .error e => .error e
      | .ok l => .ok (kv :: l)

/-- A `Constant` proto, as consumed by the gate deserializer's token
handling (only its `string_value` field is read there). -/
structure ConstantProto where
  string_value : String
  deriving DecidableEq, Repr

/-- The result of gate-operation deserialization, abstracted over the
external `gate_constructor`, `gate.on(...)` and `op_wrapper`: the
operation is represented by its constructor-argument record, its target
qubits (qubit ids are kept as strings; `v2.qubit_from_proto_id` is an
external collaborator) and the attached `CalibrationTag` values. -/
structure GateOperation where
  gateArgs : List (String × ArgLike)
  qubits : List String
  tags : List String

/-- A gate-operation deserializer: its field specifications, the optional
qubit-count parameter name and the token flag (`gate_constructor` and
`op_wrapper` are abstracted away as in `GateOperation`). -/
structure GateOpDeserializer where
  serialized_gate_id : String
  args : List DeserializingArg
  num_qubits_param : Option String := none
  deserialize_tokens : Bool := true

/-- `GateOpDeserializer.from_proto`: resolve qubits, build the
constructor arguments, inject the qubit count if requested, then handle
the calibration token: a `token_constant_index` against a `None` or empty
constants list raises the missing-constant-table error, an out-of-range
index faults with a Python `IndexError`, and otherwise the constant's
string value is attached as a tag; a direct `token_value` is attached
as-is. -/
def GateOpDeserializer.from_proto (d : GateOpDeserializer) (proto : OperationProto)
    (arg_function_language : String) (constants : Option (List ConstantProto)) :
    Except SerErr GateOperation :=
  match _args_from_proto d.args proto.args arg_function_language with
  | .error e => .error e
  | .ok args0 =>
    let args := match d.num_qubits_param with
      | some p => args0 ++ [(p, .intVal (proto.qubits.length : ℤ))]
      | none => args0
    let op : GateOperation := ⟨args, proto.qubits, []⟩
    if d.deserialize_tokens then
      match proto.token with
      | .tokenConstantIndex n =>
        match constants with
        | none => .error .missingConstantTable
        | some cs =>
          if cs.isEmpty then .error .missingConstantTable
          else
            match cs.get? n with
            | some c => .ok { op with tags := [c.string_value] }
            | none => .error .indexError
      | .tokenValue s => .ok { op with tags := [s] }
      | .unset => .ok op
    else .ok op

/-! ## The circuit-operation deserializer and constant-table resolution -/

/-- A deserialized constant, as found in the `deserialized_constants`
list: either a `cirq.FrozenCircuit` (abstracted to an identifier) or a
value of any other kind. -/
inductive DeserializedConstant where
  | frozenCircuit (cid : ℕ)
  | other (cid : ℕ)
  deriving DecidableEq, Repr

/-- The `repetition_specification` oneof of a `CircuitOperation` proto. -/
inductive RepSpecProto where
  | repetitionCount (n : ℕ)
  | repetitionIds (ids : List String)
  | unset
  deriving DecidableEq, Repr

/-- The wire `CircuitOperation` proto.  Map entries are modelled as
association lists in wire order; qubit ids are kept as strings. -/
structure CircuitOperationProto where
  circuit_constant_index : ℕ
  repetition_specification : RepSpecProto := .unset
  qubit_map : List (String × String) := []
  measurement_key_map : List (String × String) := []
  arg_map : List (ArgProto × ArgProto) := []

/-- The result of circuit-operation deserialization: the referenced
frozen circuit (by its identifier), the derived repetition data and the
three remapping tables, as passed to the external `cirq.CircuitOperation`
constructor. -/
structure CircuitOperation where
  circuit : ℕ
  repetitions : ℕ
  rep_ids : Option (List String)
  qubit_map : List (String × String)
  measurement_key_map : List (String × String)
  arg_map : List (Option ArgLike × Option ArgLike)

/-- `isinstance(arg, (str, sympy.Symbol))` for a decoded `arg_map` key
(`None` is neither). -/
def isMapKeyOk : Option ArgLike → Bool
  | some (.strVal _) => true
  | some (.symbol _) => true
  | _ => false

/-- `isinstance(arg, (str, sympy.Symbol, float, int))` for a decoded
`arg_map` value. -/
def isMapValueOk : Option ArgLike → Bool
  | some (.strVal _) => true
  | some (.symbol _) => true
  | some (.floatVal _) => true
  | some (.intVal _) => true
  | _ => false

/-- The `arg_map` dict comprehension: each entry's key and then value are
decoded with no `required_arg_name`; a decoding error propagates before
any type check runs. -/
def decodeArgMap (entries : List (ArgProto × ArgProto)) (arg_function_language : String) :
    Except SerErr (List (Option ArgLike × Option ArgLike)) :=
  match entries with
  | [] => .ok []
  | (k, v) :: rest =>
    match arg_from_proto k arg_function_language none with
    | .error e => .error e
    | .ok k2 =>
      match arg_from_proto v arg_function_language none with
      | .error e => .error e
      | .ok v2 =>
        match decodeArgMap rest arg_function_language with
        | .error e => .error e
        | .ok l => .ok ((k2, v2) :: l)

/-- The tail of `CircuitOpDeserializer.from_proto` once the constant
checks have passed: derive the repetition data from the repetition
specification, build the three remapping tables (decoding `arg_map` and
then checking key and value kinds), and assemble the operation around the
resolved circuit `cid`. -/
def circuitOpBuild (cid : ℕ) (proto : CircuitOperationProto)
    (arg_function_language : String) : Except SerErr CircuitOperation :=
  let rep : Option (List String) × ℕ :=
    match proto.repetition_specification with
    | .repetitionCount n => (none, n)
    | .repetitionIds ids => (some ids, ids.length)
    | .unset => (none, 1)
  match decodeArgMap proto.arg_map arg_function_language with
  | .error e => .error e
  | .ok am =>
    if am.all (fun kv => isMapKeyOk kv.1) then
      if am.all (fun kv => isMapValueOk kv.2) then
        .ok ⟨cid, rep.2, rep.1, proto.qubit_map, proto.measurement_key_map, am⟩
      else .error .invalidMapValue
    else .error .invalidMapKey

/-- `CircuitOpDeserializer.from_proto`: both constant lists must be
supplied, the circuit-constant index must be strictly below the resolved
list's length, and the resolved value there must be a frozen circuit;
only then is the operation built by `circuitOpBuild`. -/
def CircuitOpDeserializer.from_proto (proto : CircuitOperationProto)
    (arg_function_language : String) (constants : Option (List ConstantProto))
    (deserialized_constants : Option (List DeserializedConstant)) :
    Except SerErr CircuitOperation :=
  match constants, deserialized_constants with
  | none, _ => .error .missingConstantContext
  | some _, none => .error .missingConstantContext
  | some _, some dc =>
    if dc.length ≤ proto.circuit_constant_index then .error .constantIndexOutOfRange
    else
      match dc.get? proto.circuit_constant_index with
      | some (.frozenCircuit cid) => circuitOpBuild cid proto arg_function_language
      | some (.other _) => .error .wrongConstantKind
      | none => .error .constantIndexOutOfRange

/-! ## Specification-side helpers -/

mutual

/-- The integer-normalization the decoder applies to numbers: a float
whose value is an exact integer comes back in integer-valued form;
everything else is untouched (recursively through function operands). -/
def intNormalize : ArgLike → ArgLike
  | .intVal n => .intVal n
  | .floatVal q => if q.den = 1 then .intVal q.num else .floatVal q
  | .strVal s => .strVal s
  | .boolList bs => .boolList bs
  | .symbol s => .symbol s
  | .add args => .add (intNormalizeList args)
  | .mul args => .mul (intNormalizeList args)
  | .pow args => .pow (intNormalizeList args)

def intNormalizeList : List ArgLike → List ArgLike
  | [] => []
  | a :: rest => intNormalize a :: intNormalizeList rest

end

mutual

/-- A value is constructible under a permitted-operator set when every
function node it contains carries a permitted operator. -/
def opsAllowed (supported : List String) : ArgLike → Bool
  | .add args => decide ("add" ∈ supported) && opsListAllowed supported args
  | .mul args => decide ("mul" ∈ supported) && opsListAllowed supported args
  | .pow args => decide ("pow" ∈ supported) && opsListAllowed supported args
  | _ => true

def opsListAllowed (supported : List String) : List ArgLike → Bool
  | [] => true
  | a :: rest => opsAllowed supported a && opsListAllowed supported rest

end

/-- `isinstance(circuit, cirq.FrozenCircuit)` for a resolved constant. -/
def isFrozenCircuit : DeserializedConstant → Bool
  | .frozenCircuit _ => true
  | .other _ => false

mutual

/-- Every function node of a wire argument tree (at any depth) carries a
recognized operator tag (`add`, `mul` or `pow`). -/
def wfTagsA : ArgProto → Bool
  | .func ftype args => (ftype == "add" || ftype == "mul" || ftype == "pow") && wfTagsAList args
  | _ => true

def wfTagsAList : List ArgProto → Bool
  | [] => true
  | a :: rest => wfTagsA a && wfTagsAList rest

end

mutual

/-- Some function node of a wire argument tree (at any depth) carries the
tag `pow`. -/
def hasPowA : ArgProto → Bool
  | .func ftype args => ftype == "pow" || hasPowAList args
  | _ => false

def hasPowAList : List ArgProto → Bool
  | [] => false
  | a :: rest => hasPowA a || hasPowAList rest

end

/-- The wire argument is a function record.  (Children of an `ArgProto`
only occur below a `func` node, so a tree contains a function node
exactly when its root is one.) -/
def hasFuncA : ArgProto → Bool
  | .func _ _ => true
  | _ => false

/-- All operation argument values of a circuit, in traversal order
(every argument of every operation of every moment). -/
def circuitArgs (c : CircuitProto) : List ArgProto :=
  ((c.moments.map MomentProto.operations).flatten.map
      (fun op => op.args.map Prod.snd)).flatten

def wfTagsC (c : CircuitProto) : Bool := wfTagsAList (circuitArgs c)

def hasPowC (c : CircuitProto) : Bool := hasPowAList (circuitArgs c)

def hasFuncC (c : CircuitProto) : Bool := (circuitArgs c).any hasFuncA

/-- The root of the wire argument is not a function node with a
recognized tag: either not a function record at all, or one whose tag is
outside `{add, mul, pow}` (nothing is said about its operands). -/
def topTagUnrecognized : ArgProto → Bool
  | .func ftype _ => !(ftype == "add" || ftype == "mul" || ftype == "pow")
  | _ => true

/-- Mutual structural induction for `ArgLike` together with its operand
lists. -/
theorem argLikeInductPair (motive : ArgLike → Prop) (motiveL : List ArgLike → Prop)
    (hInt : ∀ n, motive (.intVal n)) (hFloat : ∀ q, motive (.floatVal q))
    (hStr : ∀ s, motive (.strVal s)) (hBool : ∀ bs, motive (.boolList bs))
    (hSym : ∀ s, motive (.symbol s))
    (hAdd : ∀ args, motiveL args → motive (.add args))
    (hMul : ∀ args, motiveL args → motive (.mul args))
    (hPow : ∀ args, motiveL args → motive (.pow args))
    (hNil : motiveL [])
    (hCons : ∀ a rest, motive a → motiveL rest → motiveL (a :: rest)) :
    (∀ v, motive v) ∧ (∀ l, motiveL l) := by
  have h1 : ∀ v, motive v := fun v =>
    @ArgLike.rec motive motiveL
      hInt hFloat hStr hBool hSym hAdd hMul hPow hNil hCons v
  refine ⟨h1, ?_⟩
  intro l
  induction l with
  | nil => exact hNil
  | cons a rest ih => exact hCons a rest (h1 a) ih

/-- Master round-trip lemma: a value whose function operators are all
permitted by the tier encodes without error (from a fresh message) and
decodes back, under any `required_arg_name` context, to its
integer-normalized form; likewise for operand lists. -/
theorem roundtripPair :
    (∀ v : ArgLike, ∀ (T : String) (S : List String) (r : Option String),
        SUPPORTED_FUNCTIONS_FOR_LANGUAGE (some T) = some S →
        opsAllowed S v = true →
        ∃ p, arg_to_proto_st v (some T) .unset = (p, none) ∧
          arg_from_proto p T r = .ok (some (intNormalize v))) ∧
    (∀ l : List ArgLike, ∀ (T : String) (S : List String) (name : String),
        SUPPORTED_FUNCTIONS_FOR_LANGUAGE (some T) = some S →
        opsListAllowed S l = true →
        ∃ ps, argListToProtoSt l (some T) = (ps, none) ∧
          argListFromProto ps T name = .ok (intNormalizeList l)) := by
  apply argLikeInductPair
  · intro n T S r hT _
    refine ⟨.argValue (.floatValue (n : ℚ)), rfl, ?_⟩
    simp [arg_from_proto, intNormalize, Rat.den_intCast, Rat.num_intCast]
  · intro q T S r hT _
    refine ⟨.argValue (.floatValue q), rfl, ?_⟩
    by_cases h : q.den = 1 <;> simp [arg_from_proto, intNormalize, h]
  · intro s T S r hT _
    exact ⟨.argValue (.stringValue s), rfl, by simp [arg_from_proto, intNormalize]⟩
  · intro bs T S r hT _
    exact ⟨.argValue (.boolValues bs), rfl, by simp [arg_from_proto, intNormalize]⟩
  · intro s T S r hT _
    refine ⟨.symbol s, ?_, by simp [arg_from_proto, intNormalize]⟩
    simp [arg_to_proto_st, hT]
  · intro args ih T S r hT hv
    rw [opsAllowed, Bool.and_eq_true, decide_eq_true_iff] at hv
    obtain ⟨ps, he, hd⟩ := ih T S "An addition argument" hT hv.2
    refine ⟨.func "add" ps, ?_, ?_⟩
    · simp [arg_to_proto_st, hT, hv.1, he, priorFuncArgs]
    · simp [arg_from_proto, hT, hv.1, hd, intNormalize]
  · intro args ih T S r hT hv
    rw [opsAllowed, Bool.and_eq_true, decide_eq_true_iff] at hv
    obtain ⟨ps, he, hd⟩ := ih T S "A multiplication argument" hT hv.2
    refine ⟨.func "mul" ps, ?_, ?_⟩
    · simp [arg_to_proto_st, hT, hv.1, he, priorFuncArgs]
    · simp [arg_from_proto, hT, hv.1, hd, intNormalize]
  · intro args ih T S r hT hv
    rw [opsAllowed, Bool.and_eq_true, decide_eq_true_iff] at hv
    obtain ⟨ps, he, hd⟩ := ih T S "A power argument" hT hv.2
    refine ⟨.func "pow" ps, ?_, ?_⟩
    · simp [arg_to_proto_st, hT, hv.1, he, priorFuncArgs]
    · simp [arg_from_proto, hT, hv.1, hd, intNormalize]
  · intro T S name hT _
    exact ⟨[], rfl, by simp [argListFromProto, intNormalizeList]⟩
  · intro a rest iha ihl T S name hT hv
    rw [opsListAllowed, Bool.and_eq_true] at hv
    obtain ⟨p, hea, hda⟩ := iha T S (some name) hT hv.1
    obtain ⟨ps, her, hdr⟩ := ihl T S name hT hv.2
    refine ⟨p :: ps, ?_, ?_⟩
    · simp [argListToProtoSt, hea, her]
    · simp [argListFromProto, hda, hdr, intNormalizeList]

/-- C1: for every argument value `v` constructible under tier `T` (every
function operator in `v` is permitted by `T`), encoding under `T`
succeeds and decoding the produced wire record under the same `T` yields
`v` up to the integer normalization of exactly-integral numbers. -/
theorem claim_roundtrip (v : ArgLike) (T : String) (S : List String)
    (hT : SUPPORTED_FUNCTIONS_FOR_LANGUAGE (some T) = some S)
    (hv : opsAllowed S v = true) :
    ∃ p, arg_to_proto v (some T) = .ok p ∧
      arg_from_proto p T none = .ok (some (intNormalize v)) := by
  obtain ⟨p, he, hd⟩ := roundtripPair.1 v T S none hT hv
  exact ⟨p, by simp [arg_to_proto, he], hd⟩

/-- Witness for C1: a concrete `add(2.0, mul(3, x))` round-trips under
`linear`, the float `2.0` coming back as the integer `2`. -/
theorem claim_roundtrip_witness :
    ∃ p, arg_to_proto (.add [.floatVal 2, .mul [.intVal 3, .symbol "x"]]) (some "linear") = .ok p ∧
      arg_from_proto p "linear" none =
        .ok (some (.add [.intVal 2, .mul [.intVal 3, .symbol "x"]])) :=
  claim_roundtrip (.add [.floatVal 2, .mul [.intVal 3, .symbol "x"]]) "linear"
    ["add", "mul"] rfl (by decide)

/-- Mutual structural induction for `ArgProto` together with its operand
lists. -/
theorem argProtoInductPair (motive : ArgProto → Prop) (motiveL : List ArgProto → Prop)
    (hVal : ∀ v, motive (.argValue v)) (hSym : ∀ s, motive (.symbol s))
    (hFunc : ∀ ftype args, motiveL args → motive (.func ftype args))
    (hUnset : motive .unset) (hNil : motiveL [])
    (hCons : ∀ a rest, motive a → motiveL rest → motiveL (a :: rest)) :
    (∀ p, motive p) ∧ (∀ l, motiveL l) := by
  have h1 : ∀ p, motive p := fun p =>
    @ArgProto.rec motive motiveL hVal hSym hFunc hUnset hNil hCons p
  refine ⟨h1, ?_⟩
  intro l
  induction l with
  | nil => exact hNil
  | cons a rest ih => exact hCons a rest (h1 a) ih

/-- C3: encoding a `pow` function under the `linear` tier fails with the
unsupported-operator error before any operand is examined, and decoding a
wire function record tagged `pow` under a declared `linear` tier fails
with the unrecognized-function error — the permission is re-validated on
decode. -/
theorem claim_tier_rejection (args : List ArgLike) (pargs : List ArgProto)
    (r : Option String) :
    arg_to_proto (.pow args) (some "linear") = .error (.unsupportedOperator "pow") ∧
    arg_from_proto (.func "pow" pargs) "linear" r = .error (.unrecognizedFunction "pow") :=
  ⟨rfl, rfl⟩

/-- C2 (code bug): `_args_from_proto` tests the default with Python
truthiness (`if arg.default:`), so a field specification whose default is
`0` — set, hence "required is ignored" per the `DeserializingArg`
docstring — nevertheless raises the missing-required-argument error when
the wire argument is absent. -/
theorem claim_default_truthiness_bug :
    _args_from_proto [⟨"k", "k2", none, true, some (.intVal 0)⟩] [] "" =
      .error (.missingRequiredArgument "k") := rfl

/-- C7 counterexample: encoding `add(x, pow())` under `linear` into a
fresh caller-supplied output record raises the unsupported-operator error
for `pow`, yet the output record has already been partially written (the
`add` tag, the encoded first operand and the appended empty sub-message)
— it is not left unmodified. -/
theorem claim_atomicity_counterexample :
    arg_to_proto_st (.add [.symbol "x", .pow []]) (some "linear") .unset =
      (.func "add" [.symbol "x", .unset], some (.unsupportedOperator "pow")) ∧
    ArgProto.func "add" [.symbol "x", .unset] ≠ ArgProto.unset :=
  ⟨rfl, by simp⟩

/-- Failure direction of encoding: a value containing a function operator
outside the permitted set makes the encoder raise some error (the
depth-first traversal reaches the leftmost offending node). -/
theorem encodeFailPair :
    (∀ v : ArgLike, ∀ (T : String) (S : List String),
        SUPPORTED_FUNCTIONS_FOR_LANGUAGE (some T) = some S →
        opsAllowed S v = false →
        ∃ m e, arg_to_proto_st v (some T) .unset = (m, some e)) ∧
    (∀ l : List ArgLike, ∀ (T : String) (S : List String),
        SUPPORTED_FUNCTIONS_FOR_LANGUAGE (some T) = some S →
        opsListAllowed S l = false →
        ∃ ms e, argListToProtoSt l (some T) = (ms, some e)) := by
  apply argLikeInductPair
  · intro n T S _ hv; simp [opsAllowed] at hv
  · intro q T S _ hv; simp [opsAllowed] at hv
  · intro s T S _ hv; simp [opsAllowed] at hv
  · intro bs T S _ hv; simp [opsAllowed] at hv
  · intro s T S _ hv; simp [opsAllowed] at hv
  · intro args ih T S hT hv
    rw [opsAllowed, Bool.and_eq_false_iff] at hv
    rcases hv with hmem | hargs
    · refine ⟨.unset, .unsupportedOperator "add", ?_⟩
      simp only [arg_to_proto_st, hT]
      rw [if_neg (by simpa using hmem)]
    · obtain ⟨ms, e, hl⟩ := ih T S hT hargs
      by_cases hmem : "add" ∈ S
      · refine ⟨.func "add" ms, e, ?_⟩
        simp only [arg_to_proto_st, hT]
        rw [if_pos hmem]
        simp [hl, priorFuncArgs]
      · refine ⟨.unset, .unsupportedOperator "add", ?_⟩
        simp only [arg_to_proto_st, hT]
        rw [if_neg hmem]
  · intro args ih T S hT hv
    rw [opsAllowed, Bool.and_eq_false_iff] at hv
    rcases hv with hmem | hargs
    · refine ⟨.unset, .unsupportedOperator "mul", ?_⟩
      simp only [arg_to_proto_st, hT]
      rw [if_neg (by simpa using hmem)]
    · obtain ⟨ms, e, hl⟩ := ih T S hT hargs
      by_cases hmem : "mul" ∈ S
      · refine ⟨.func "mul" ms, e, ?_⟩
        simp only [arg_to_proto_st, hT]
        rw [if_pos hmem]
        simp [hl, priorFuncArgs]
      · refine ⟨.unset, .unsupportedOperator "mul", ?_⟩
        simp only [arg_to_proto_st, hT]
        rw [if_neg hmem]
  · intro args ih T S hT hv
    rw [opsAllowed, Bool.and_eq_false_iff] at hv
    rcases hv with hmem | hargs
    · refine ⟨.unset, .unsupportedOperator "pow", ?_⟩
      simp only [arg_to_proto_st, hT]
      rw [if_neg (by simpa using hmem)]
    · obtain ⟨ms, e, hl⟩ := ih T S hT hargs
      by_cases hmem : "pow" ∈ S
      · refine ⟨.func "pow" ms, e, ?_⟩
        simp only [arg_to_proto_st, hT]
        rw [if_pos hmem]
        simp [hl, priorFuncArgs]
      · refine ⟨.unset, .unsupportedOperator "pow", ?_⟩
        simp only [arg_to_proto_st, hT]
        rw [if_neg hmem]
  · intro T S _ hv; simp [opsListAllowed] at hv
  · intro a rest iha ihl T S hT hv
    rw [opsListAllowed, Bool.and_eq_false_iff] at hv
    rcases hv with ha | hrest
    · obtain ⟨m, e, hm⟩ := iha T S hT ha
      exact ⟨[m], e, by simp [argListToProtoSt, hm]⟩
    · by_cases ha : opsAllowed S a = true
      · obtain ⟨p, hp, _⟩ := roundtripPair.1 a T S none hT ha
        obtain ⟨ms, e, hms⟩ := ihl T S hT hrest
        exact ⟨p :: ms, e, by simp [argListToProtoSt, hp, hms]⟩
      · obtain ⟨m, e, hm⟩ := iha T S hT (by simpa using ha)
        exact ⟨[m], e, by simp [argListToProtoSt, hm]⟩

/-- C7 (amended): an encode call from a fresh output record either fully
succeeds — the fallible view returns exactly the final record — or
raises exactly one typed error which the fallible view propagates
unmodified, according to whether every function operator of the value is
permitted; on failure, however, the final record state may contain a
partially written encoding (see the counterexample). -/
theorem claim_atomicity_amended (v : ArgLike) (T : String) (S : List String)
    (hT : SUPPORTED_FUNCTIONS_FOR_LANGUAGE (some T) = some S) :
    (opsAllowed S v = true →
       ∃ p, arg_to_proto_st v (some T) .unset = (p, none) ∧
         arg_to_proto v (some T) = .ok p) ∧
    (opsAllowed S v = false →
       ∃ m e, arg_to_proto_st v (some T) .unset = (m, some e) ∧
         arg_to_proto v (some T) = .error e) := by
  constructor
  · intro hv
    obtain ⟨p, hp, _⟩ := roundtripPair.1 v T S none hT hv
    exact ⟨p, hp, by simp [arg_to_proto, hp]⟩
  · intro hv
    obtain ⟨m, e, hm⟩ := encodeFailPair.1 v T S hT hv
    exact ⟨m, e, hm, by simp [arg_to_proto, hm]⟩

/-- Witness for the amended C7: `add(x, pow())` under `linear` fails with
exactly one typed error, which the fallible view propagates. -/
theorem claim_atomicity_amended_witness :
    ∃ m e, arg_to_proto_st (.add [.symbol "x", .pow []]) (some "linear") .unset = (m, some e) ∧
      arg_to_proto (.add [.symbol "x", .pow []]) (some "linear") = .error e :=
  (claim_atomicity_amended (.add [.symbol "x", .pow []]) "linear" ["add", "mul"] rfl).2 rfl

/-- `arg_to_proto` succeeds exactly when the state-passing encoder from a
fresh message finishes without error, and returns that final message. -/
theorem arg_to_proto_ok_iff (v : ArgLike) (L : Option String) (p : ArgProto) :
    arg_to_proto v L = .ok p ↔ arg_to_proto_st v L .unset = (p, none) := by
  rw [arg_to_proto]
  rcases h : arg_to_proto_st v L .unset with ⟨m, e⟩
  cases e <;> simp [Prod.ext_iff, eq_comm]

/-- Monotonicity of encoding in the permitted-operator set: a successful
encode under a set `SA` is reproduced verbatim under any superset `SB`
(the permission checks are the encoder's only use of the tier). -/
theorem encodeMonoPair :
    (∀ v : ArgLike, ∀ (A B : String) (SA SB : List String) (out m : ArgProto),
        SUPPORTED_FUNCTIONS_FOR_LANGUAGE (some A) = some SA →
        SUPPORTED_FUNCTIONS_FOR_LANGUAGE (some B) = some SB →
        (∀ x, x ∈ SA → x ∈ SB) →
        arg_to_proto_st v (some A) out = (m, none) →
        arg_to_proto_st v (some B) out = (m, none)) ∧
    (∀ l : List ArgLike, ∀ (A B : String) (SA SB : List String) (ms : List ArgProto),
        SUPPORTED_FUNCTIONS_FOR_LANGUAGE (some A) = some SA →
        SUPPORTED_FUNCTIONS_FOR_LANGUAGE (some B) = some SB →
        (∀ x, x ∈ SA → x ∈ SB) →
        argListToProtoSt l (some A) = (ms, none) →
        argListToProtoSt l (some B) = (ms, none)) := by
  apply argLikeInductPair
  · intro n A B SA SB out m _ _ _ h; exact h
  · intro q A B SA SB out m _ _ _ h; exact h
  · intro s A B SA SB out m _ _ _ h; exact h
  · intro bs A B SA SB out m _ _ _ h; exact h
  · intro s A B SA SB out m hA hB _ h
    simp only [arg_to_proto_st, hA] at h
    simp only [arg_to_proto_st, hB]
    exact h
  · intro args ih A B SA SB out m hA hB hsub h
    simp only [arg_to_proto_st, hA] at h
    simp only [arg_to_proto_st, hB]
    by_cases hmem : "add" ∈ SA
    · rw [if_pos hmem] at h
      rw [if_pos (hsub _ hmem)]
      injection h with hm hr
      have hl := ih A B SA SB _ hA hB hsub (Prod.ext rfl hr)
      simp [hl, ← hm]
    · rw [if_neg hmem] at h
      simp at h
  · intro args ih A B SA SB out m hA hB hsub h
    simp only [arg_to_proto_st, hA] at h
    simp only [arg_to_proto_st, hB]
    by_cases hmem : "mul" ∈ SA
    · rw [if_pos hmem] at h
      rw [if_pos (hsub _ hmem)]
      injection h with hm hr
      have hl := ih A B SA SB _ hA hB hsub (Prod.ext rfl hr)
      simp [hl, ← hm]
    · rw [if_neg hmem] at h
      simp at h
  · intro args ih A B SA SB out m hA hB hsub h
    simp only [arg_to_proto_st, hA] at h
    simp only [arg_to_proto_st, hB]
    by_cases hmem : "pow" ∈ SA
    · rw [if_pos hmem] at h
      rw [if_pos (hsub _ hmem)]
      injection h with hm hr
      have hl := ih A B SA SB _ hA hB hsub (Prod.ext rfl hr)
      simp [hl, ← hm]
    · rw [if_neg hmem] at h
      simp at h
  · intro A B SA SB ms _ _ _ h; exact h
  · intro a rest iha ihl A B SA SB ms hA hB hsub h
    simp only [argListToProtoSt] at h ⊢
    rcases h2 : (arg_to_proto_st a (some A) .unset).2 with _ | e
    · have ha := iha A B SA SB .unset _ hA hB hsub (Prod.ext rfl h2)
      rw [h2] at h
      injection h with hm hr
      have hrest := ihl A B SA SB _ hA hB hsub (Prod.ext rfl hr)
      simp [ha, hrest, ← hm]
    · rw [h2] at h
      simp at h

/-- C8: if tier `A` is strictly less permissive than tier `B` in
`LANGUAGE_ORDER`, then a value that encodes successfully under `A`
encodes successfully under `B` with the identical wire record. -/
theorem claim_tier_monotonicity (v : ArgLike) (A B : String) (p : ArgProto)
    (hA : A ∈ LANGUAGE_ORDER) (hB : B ∈ LANGUAGE_ORDER)
    (hAB : LANGUAGE_ORDER.indexOf A < LANGUAGE_ORDER.indexOf B)
    (h : arg_to_proto v (some A) = .ok p) :
    arg_to_proto v (some B) = .ok p := by
  rw [arg_to_proto_ok_iff] at h ⊢
  rw [LANGUAGE_ORDER] at hA hB
  simp only [List.mem_cons, List.mem_singleton, List.not_mem_nil, or_false] at hA hB
  rcases hA with rfl | rfl | rfl <;> rcases hB with rfl | rfl | rfl <;>
    simp [LANGUAGE_ORDER] at hAB
  · exact encodeMonoPair.1 v "" "linear" [] ["add", "mul"] .unset p rfl rfl (by decide) h
  · exact encodeMonoPair.1 v "" "exp" [] ["add", "mul", "pow"] .unset p rfl rfl (by decide) h
  · exact encodeMonoPair.1 v "linear" "exp" ["add", "mul"] ["add", "mul", "pow"] .unset p
      rfl rfl (by decide) h

/-- Witness for C8: `add(x)` encodes identically under `linear` and the
strictly more permissive `exp`. -/
theorem claim_tier_monotonicity_witness :
    arg_to_proto (.add [.symbol "x"]) (some "exp") = .ok (.func "add" [.symbol "x"]) :=
  claim_tier_monotonicity (.add [.symbol "x"]) "linear" "exp" (.func "add" [.symbol "x"])
    (by decide) (by decide) (by decide) rfl

/-- C4 counterexample: a gate-operation record with a calibration-token
constant index that is out of range of a non-empty constant table faults
with a Python `IndexError`, not with the missing-constant-table error the
claim names. -/
theorem claim_token_index_counterexample :
    GateOpDeserializer.from_proto ⟨"xy", [], none, true⟩
      ⟨[], [], .tokenConstantIndex 2⟩ "" (some [⟨"tok"⟩]) = .error .indexError ∧
    SerErr.indexError ≠ SerErr.missingConstantTable := ⟨rfl, by decide⟩

/-- C4 (amended): for a gate-operation record carrying a calibration
token as a constant-table index, deserialization fails with the
missing-constant-table error when the table is absent or empty; a
non-empty table with the index out of range faults with an `IndexError`
(not the missing-constant-table error); and an in-range index attaches
the constant's string value as operation metadata. -/
theorem claim_token_index_amended (d : GateOpDeserializer) (proto : OperationProto)
    (lang : String) (cs : Option (List ConstantProto)) (n : ℕ)
    (A : List (String × ArgLike))
    (hargs : _args_from_proto d.args proto.args lang = .ok A)
    (htok : proto.token = .tokenConstantIndex n)
    (hdt : d.deserialize_tokens = true) :
    ((cs = none ∨ cs = some []) →
        GateOpDeserializer.from_proto d proto lang cs = .error .missingConstantTable) ∧
    (∀ l, cs = some l → l ≠ [] → l.length ≤ n →
        GateOpDeserializer.from_proto d proto lang cs = .error .indexError) ∧
    (∀ l, cs = some l → ∀ hn : n < l.length,
        ∃ op, GateOpDeserializer.from_proto d proto lang cs = .ok op ∧
          op.tags = [(l.get ⟨n, hn⟩).string_value]) := by
  refine ⟨?_, ?_, ?_⟩
  · rintro (rfl | rfl) <;>
      simp [GateOpDeserializer.from_proto, hargs, htok, hdt]
  · rintro l rfl hne hlen
    simp only [GateOpDeserializer.from_proto, hargs, htok, hdt, if_true]
    cases l with
    | nil => exact absurd rfl hne
    | cons c rest => simp [List.getElem?_eq_none hlen]
  · rintro l rfl hn
    simp only [GateOpDeserializer.from_proto, hargs, htok, hdt, if_true]
    have hne : l.isEmpty = false := by
      cases l
      · simp at hn
      · rfl
    simp only [hne, Bool.false_eq_true, if_false, List.get?_eq_getElem?,
      List.getElem?_eq_getElem hn]
    exact ⟨_, rfl, by simp [List.get_eq_getElem]⟩

/-- Witness for the amended C4: an in-range token index attaches the
constant's string value as a tag. -/
theorem claim_token_index_amended_witness :
    ∃ op, GateOpDeserializer.from_proto ⟨"xy", [], none, true⟩
        ⟨[], [], .tokenConstantIndex 0⟩ "" (some [⟨"tok"⟩]) = .ok op ∧
      op.tags = ["tok"] :=
  (claim_token_index_amended ⟨"xy", [], none, true⟩ ⟨[], [], .tokenConstantIndex 0⟩
      "" (some [⟨"tok"⟩]) 0 [] rfl rfl rfl).2.2 [⟨"tok"⟩] rfl (by decide)

/-- C5: circuit-operation deserialization checks its constant context in
order — a missing raw or resolved constants list fails with the
missing-constant-context error, an index not strictly below the resolved
list's length fails with the index-out-of-range error, a resolved value
of the wrong kind fails with the wrong-constant-kind error — and only
with all three checks passed does it proceed to build the operation. -/
theorem claim_constant_context_checks (proto : CircuitOperationProto) (lang : String)
    (cs : Option (List ConstantProto)) (dc : Option (List DeserializedConstant)) :
    ((cs = none ∨ dc = none) →
        CircuitOpDeserializer.from_proto proto lang cs dc = .error .missingConstantContext) ∧
    (∀ c l, cs = some c → dc = some l → l.length ≤ proto.circuit_constant_index →
        CircuitOpDeserializer.from_proto proto lang cs dc = .error .constantIndexOutOfRange) ∧
    (∀ c l, cs = some c → dc = some l → ∀ hn : proto.circuit_constant_index < l.length,
        isFrozenCircuit (l.get ⟨proto.circuit_constant_index, hn⟩) = false →
        CircuitOpDeserializer.from_proto proto lang cs dc = .error .wrongConstantKind) ∧
    (∀ c l cid, cs = some c → dc = some l → ∀ hn : proto.circuit_constant_index < l.length,
        l.get ⟨proto.circuit_constant_index, hn⟩ = .frozenCircuit cid →
        CircuitOpDeserializer.from_proto proto lang cs dc =
          circuitOpBuild cid proto lang) := by
  refine ⟨?_, ?_, ?_, ?_⟩
  · rintro (rfl | rfl)
    · rfl
    · cases cs <;> rfl
  · rintro c l rfl rfl hlen
    simp [CircuitOpDeserializer.from_proto, hlen]
  · rintro c l rfl rfl hn hkind
    simp only [CircuitOpDeserializer.from_proto, if_neg (Nat.not_le.2 hn),
      List.get?_eq_getElem?, List.getElem?_eq_getElem hn]
    rw [List.get_eq_getElem] at hkind
    rcases hget : l[proto.circuit_constant_index] with cid | cid
    · rw [hget] at hkind
      simp [isFrozenCircuit] at hkind
    · rfl
  · rintro c l cid rfl rfl hn hget
    simp only [CircuitOpDeserializer.from_proto, if_neg (Nat.not_le.2 hn),
      List.get?_eq_getElem?, List.getElem?_eq_getElem hn]
    rw [List.get_eq_getElem] at hget
    rw [hget]

/-- Witness for C5: the three context errors at concrete inputs. -/
theorem claim_constant_context_checks_witness :
    CircuitOpDeserializer.from_proto ⟨0, .unset, [], [], []⟩ "" none none =
      .error .missingConstantContext ∧
    CircuitOpDeserializer.from_proto ⟨3, .unset, [], [], []⟩ "" (some [])
      (some [.frozenCircuit 0, .other 1]) = .error .constantIndexOutOfRange ∧
    CircuitOpDeserializer.from_proto ⟨0, .unset, [], [], []⟩ "" (some [])
      (some [.other 5]) = .error .wrongConstantKind :=
  ⟨(claim_constant_context_checks ⟨0, .unset, [], [], []⟩ "" none none).1 (Or.inl rfl),
   (claim_constant_context_checks ⟨3, .unset, [], [], []⟩ "" (some [])
      (some [.frozenCircuit 0, .other 1])).2.1 [] [.frozenCircuit 0, .other 1]
      rfl rfl (by decide),
   (claim_constant_context_checks ⟨0, .unset, [], [], []⟩ "" (some [])
      (some [.other 5])).2.2.1 [] [.other 5] rfl rfl (by decide) rfl⟩

/-- C9: whenever circuit-operation deserialization succeeds, the derived
repetition count is the length of the id list for an explicit-ids
specification, the count for a count specification, and 1 when neither
is set (with the repetition ids retained exactly in the explicit case). -/
theorem claim_repetition_derivation (proto : CircuitOperationProto) (lang : String)
    (cs : Option (List ConstantProto)) (dc : Option (List DeserializedConstant))
    (op : CircuitOperation)
    (h : CircuitOpDeserializer.from_proto proto lang cs dc = .ok op) :
    op.repetitions = (match proto.repetition_specification with
      | .repetitionCount n => n
      | .repetitionIds ids => ids.length
      | .unset => 1) ∧
    op.rep_ids = (match proto.repetition_specification with
      | .repetitionCount _ => none
      | .repetitionIds ids => some ids
      | .unset => none) := by
  rcases cs with _ | c
  · exact absurd h (by simp [CircuitOpDeserializer.from_proto])
  rcases dc with _ | l
  · exact absurd h (by simp [CircuitOpDeserializer.from_proto])
  rw [CircuitOpDeserializer.from_proto] at h
  split at h
  · exact absurd h (by simp)
  · split at h
    · rw [circuitOpBuild] at h
      split at h
      · exact absurd h (by simp)
      · split at h
        · split at h
          · injection h with h2
            subst h2
            cases proto.repetition_specification <;> simp
          · exact absurd h (by simp)
        · exact absurd h (by simp)
    · exact absurd h (by simp)
    · exact absurd h (by simp)

/-- Witness for C9: explicit ids `["a","b","c"]` yield 3 repetitions. -/
theorem claim_repetition_derivation_witness :
    ∃ op, CircuitOpDeserializer.from_proto ⟨0, .repetitionIds ["a", "b", "c"], [], [], []⟩
        "" (some []) (some [.frozenCircuit 7]) = .ok op ∧
      op.repetitions = 3 ∧ op.rep_ids = some ["a", "b", "c"] := by
  refine ⟨⟨7, 3, some ["a", "b", "c"], [], [], []⟩, rfl, ?_⟩
  exact claim_repetition_derivation ⟨0, .repetitionIds ["a", "b", "c"], [], [], []⟩
    "" (some []) (some [.frozenCircuit 7]) ⟨7, 3, some ["a", "b", "c"], [], [], []⟩ rfl

theorem foldl_max_le (l : List ℕ) (a b : ℕ) (ha : a ≤ b) (h : ∀ x ∈ l, x ≤ b) :
    l.foldl max a ≤ b := by
  induction l generalizing a with
  | nil => exact ha
  | cons x xs ih =>
    exact ih (max a x) (max_le ha (h x (by simp))) (fun y hy => h y (by simp [hy]))

theorem le_foldl_max_init (l : List ℕ) (a : ℕ) : a ≤ l.foldl max a := by
  induction l generalizing a with
  | nil => simp [List.foldl_nil]
  | cons x xs ih => exact le_trans (le_max_left a x) (ih (max a x))

theorem le_foldl_max_of_mem (l : List ℕ) (a x : ℕ) (hx : x ∈ l) : x ≤ l.foldl max a := by
  induction l generalizing a with
  | nil => simp at hx
  | cons y ys ih =>
    rcases List.mem_cons.1 hx with rfl | hmem
    · exact le_trans (le_max_right a x) (le_foldl_max_init ys (max a x))
    · exact ih (max a y) hmem

/-- `_max_lang` on a list drawn from `{"linear", "exp"}`: the most
flexible language present, `""` when the list is empty. -/
theorem max_lang_spec (ls : List String)
    (h : ∀ e ∈ ls, e = "linear" ∨ e = "exp") :
    _max_lang ls = if "exp" ∈ ls then "exp" else if ls = [] then "" else "linear" := by
  rw [_max_lang]
  by_cases hexp : "exp" ∈ ls
  · have h2 : (2 : ℕ) ∈ ls.map (fun e => LANGUAGE_ORDER.indexOf e) :=
      List.mem_map.2 ⟨"exp", hexp, by decide⟩
    have hfold : (ls.map (fun e => LANGUAGE_ORDER.indexOf e)).foldl max 0 = 2 := by
      refine le_antisymm (foldl_max_le _ _ _ (by decide) ?_) (le_foldl_max_of_mem _ 0 2 h2)
      intro x hx
      obtain ⟨e, he, rfl⟩ := List.mem_map.1 hx
      rcases h e he with rfl | rfl <;> decide
    rw [hfold, if_pos hexp]
    decide
  · cases ls with
    | nil =>
      simp only [List.map_nil, List.foldl_nil, if_neg hexp, if_pos rfl]
      decide
    | cons e0 rest =>
      have hlin : ∀ e ∈ e0 :: rest, e = "linear" := by
        intro e he
        rcases h e he with rfl | rfl
        · rfl
        · exact absurd he hexp
      have h1 : (1 : ℕ) ∈ (e0 :: rest).map (fun e => LANGUAGE_ORDER.indexOf e) :=
        List.mem_map.2 ⟨e0, by simp, by rw [hlin e0 (by simp)]; decide⟩
      have hfold : ((e0 :: rest).map (fun e => LANGUAGE_ORDER.indexOf e)).foldl max 0 = 1 := by
        refine le_antisymm (foldl_max_le _ _ _ (by decide) ?_) (le_foldl_max_of_mem _ 0 1 h1)
        intro x hx
        obtain ⟨e, he, rfl⟩ := List.mem_map.1 hx
        rw [hlin e he]
        decide
      rw [hfold, if_neg hexp, if_neg (by simp)]
      decide

/-- Characterization of `_function_languages_from_arg` on trees whose
function tags are all recognized: every collected language is `"linear"`
or `"exp"`; `"exp"` is collected exactly when a `pow` node occurs; and
nothing is collected exactly when there is no function node. -/
theorem funcLangsCharPair :
    (∀ a : ArgProto, wfTagsA a = true →
        (∀ e ∈ _function_languages_from_arg a, e = "linear" ∨ e = "exp") ∧
        ("exp" ∈ _function_languages_from_arg a ↔ hasPowA a = true) ∧
        (_function_languages_from_arg a = [] ↔ hasFuncA a = false)) ∧
    (∀ l : List ArgProto, wfTagsAList l = true →
        (∀ e ∈ functionLanguagesFromArgList l, e = "linear" ∨ e = "exp") ∧
        ("exp" ∈ functionLanguagesFromArgList l ↔ hasPowAList l = true) ∧
        (functionLanguagesFromArgList l = [] ↔ ∀ a ∈ l, hasFuncA a = false)) := by
  apply argProtoInductPair
  · intro v _
    simp [_function_languages_from_arg, hasPowA, hasFuncA]
  · intro s _
    simp [_function_languages_from_arg, hasPowA, hasFuncA]
  · intro ftype args ih hwf
    rw [wfTagsA, Bool.and_eq_true] at hwf
    obtain ⟨ihe, ihp, _⟩ := ih hwf.2
    have htag := hwf.1
    simp only [Bool.or_eq_true, beq_iff_eq] at htag
    rcases htag with (rfl | rfl) | rfl
    · refine ⟨?_, ?_, ?_⟩ <;>
        simp [_function_languages_from_arg, hasPowA, hasFuncA, ihe, ihp]
      intro e he
      exact ihe e he
    · refine ⟨?_, ?_, ?_⟩ <;>
        simp [_function_languages_from_arg, hasPowA, hasFuncA, ihe, ihp]
      intro e he
      exact ihe e he
    · refine ⟨?_, ?_, ?_⟩ <;>
        simp [_function_languages_from_arg, hasPowA, hasFuncA, ihe, ihp]
      intro e he
      exact ihe e he
  · intro _
    simp [_function_languages_from_arg, hasPowA, hasFuncA]
  · intro _
    simp [functionLanguagesFromArgList, hasPowAList]
  · intro a rest iha ihl hwf
    rw [wfTagsAList, Bool.and_eq_true] at hwf
    obtain ⟨ha1, ha2, ha3⟩ := iha hwf.1
    obtain ⟨hl1, hl2, hl3⟩ := ihl hwf.2
    refine ⟨?_, ?_, ?_⟩
    · intro e he
      rcases List.mem_append.1 (by simpa [functionLanguagesFromArgList] using he) with h | h
      · exact ha1 e h
      · exact hl1 e h
    · simp [functionLanguagesFromArgList, hasPowAList, ha2, hl2]
    · simp [functionLanguagesFromArgList, ha3, hl3]

theorem fLAL_append (xs ys : List ArgProto) :
    functionLanguagesFromArgList (xs ++ ys) =
      functionLanguagesFromArgList xs ++ functionLanguagesFromArgList ys := by
  induction xs with
  | nil => simp [functionLanguagesFromArgList]
  | cons a rest ih => simp [functionLanguagesFromArgList, ih]

/-- Tier inference is `_max_lang` of the languages collected over the
flattened argument list of the circuit. -/
theorem infer_eq_max_lang (c : CircuitProto) :
    _infer_function_language_from_circuit c =
      _max_lang (functionLanguagesFromArgList (circuitArgs c)) := by
  rw [_infer_function_language_from_circuit, circuitArgs]
  congr 1
  generalize (c.moments.map MomentProto.operations).flatten = ops
  induction ops with
  | nil => simp [functionLanguagesFromArgList]
  | cons op rest ih =>
    simp [fLAL_append, ih, _function_languages_from_operation]

/-- C6: on a program all of whose function records carry recognized
operator tags (the shape every data-model program serializes to), tier
inference returns the maximum of the minimal tiers of the function nodes
reached: `exp` as soon as some `pow` node occurs at any depth, otherwise
`linear` when some function node occurs, otherwise the empty (`NONE`)
tier. -/
theorem claim_inference (c : CircuitProto) (h : wfTagsC c = true) :
    _infer_function_language_from_circuit c =
      if hasPowC c then "exp" else if hasFuncC c then "linear" else "" := by
  rw [infer_eq_max_lang]
  have hc := funcLangsCharPair.2 (circuitArgs c) (by rw [wfTagsC] at h; exact h)
  rw [max_lang_spec _ hc.1]
  rw [hasPowC, hasFuncC]
  by_cases hp : hasPowAList (circuitArgs c) = true
  · rw [if_pos (hc.2.1.2 hp), if_pos hp]
  · rw [if_neg (fun hmem => hp (hc.2.1.1 hmem)), if_neg hp]
    by_cases hf : (circuitArgs c).any hasFuncA = true
    · rw [if_pos hf]
      obtain ⟨a, ha, hfa⟩ := List.any_eq_true.1 hf
      rw [if_neg (fun hnil => by simp [hc.2.2.1 hnil a ha] at hfa)]
    · rw [if_neg hf]
      rw [if_pos (hc.2.2.2 (fun a ha => by
        by_contra hne
        exact hf (List.any_eq_true.2 ⟨a, ha, by simpa using hne⟩)))]

/-- Witness for C6: a `pow`-bearing program infers `exp`, an
`add`/`mul`-only program infers `linear`, and a function-free program
infers the empty tier. -/
theorem claim_inference_witness :
    _infer_function_language_from_circuit
        ⟨[⟨[⟨["q"], [("a", .func "pow" [.symbol "x", .argValue (.floatValue 2)])], .unset⟩]⟩]⟩ =
      "exp" ∧
    _infer_function_language_from_circuit
        ⟨[⟨[⟨["q"], [("a", .func "mul" [.argValue (.floatValue 2), .symbol "x"])], .unset⟩]⟩]⟩ =
      "linear" ∧
    _infer_function_language_from_circuit
        ⟨[⟨[⟨["q"], [("a", .symbol "x")], .unset⟩]⟩]⟩ = "" :=
  ⟨claim_inference _ (by decide), claim_inference _ (by decide),
   claim_inference _ (by decide)⟩

/-- A wire argument whose root is not a recognized-tag function node
yields no languages at all: the inference neither records it nor recurses
into its operands. -/
theorem topUnrecognized_fla (a : ArgProto) (h : topTagUnrecognized a = true) :
    _function_languages_from_arg a = [] := by
  cases a with
  | func ftype args =>
    rw [topTagUnrecognized] at h
    simp only [Bool.not_eq_eq_eq_not, Bool.not_true, Bool.or_eq_false_iff,
      beq_eq_false_iff_ne, ne_eq] at h
    simp [_function_languages_from_arg, h.1.1, h.1.2, h.2]
  | argValue v => rfl
  | symbol s => rfl
  | unset => rfl

/-- C10: tier inference silently ignores function records whose operator
tag is unrecognized and does not recurse into their operands: any program
all of whose (outermost) function records carry unrecognized tags infers
the empty (`NONE`) tier, even though it may contain function records
whose nested operands would require a higher tier. -/
theorem claim_inference_unrecognized (c : CircuitProto)
    (h : ∀ a ∈ circuitArgs c, topTagUnrecognized a = true) :
    _infer_function_language_from_circuit c = "" := by
  rw [infer_eq_max_lang]
  have haux : ∀ l : List ArgProto, (∀ a ∈ l, topTagUnrecognized a = true) →
      functionLanguagesFromArgList l = [] := by
    intro l hl
    induction l with
    | nil => rfl
    | cons a rest ih =>
      rw [functionLanguagesFromArgList, topUnrecognized_fla a (hl a (by simp)),
        ih (fun b hb => hl b (by simp [hb]))]
      rfl
  rw [haux _ h]
  decide

/-- Witness for C10: a program whose only function record is tagged
`erf` — with a nested `pow` operand — infers the empty tier although it
does contain a function record, and that record fails to decode under
the inferred tier. -/
theorem claim_inference_unrecognized_witness :
    _infer_function_language_from_circuit
        ⟨[⟨[⟨["q"], [("a", .func "erf" [.func "pow" []])], .unset⟩]⟩]⟩ = "" ∧
    hasFuncA (.func "erf" [.func "pow" []]) = true ∧
    arg_from_proto (.func "erf" [.func "pow" []]) "" none =
      .error (.unrecognizedFunction "erf") :=
  ⟨claim_inference_unrecognized _ (by decide), rfl, rfl⟩

/-! Concrete sanity checks of the embedding. -/

example : arg_to_proto (.add [.intVal 2, .symbol "x"]) (some "linear") =
    .ok (.func "add" [.argValue (.floatValue 2), .symbol "x"]) := rfl

example : arg_from_proto (.func "add" [.argValue (.floatValue 2), .symbol "x"]) "linear" none =
    .ok (some (.add [.intVal 2, .symbol "x"])) := rfl

example :
    GateOpDeserializer.from_proto
      ⟨"xy", [⟨"phase", "phase_exponent", none, true, none⟩], none, true⟩
      ⟨["1_2"], [("phase", .argValue (.floatValue ⟨1, 2, by decide, by decide⟩))], .unset⟩ "" none =
    .ok ⟨[("phase_exponent", .floatVal ⟨1, 2, by decide, by decide⟩)], ["1_2"], []⟩ := rfl

example :
    CircuitOpDeserializer.from_proto
      ⟨0, .repetitionIds ["a", "b", "c"], [], [], []⟩ "" (some [])
      (some [.frozenCircuit 7]) =
    .ok ⟨7, 3, some ["a", "b", "c"], [], [], []⟩ := rfl

example :
    CircuitOpDeserializer.from_proto ⟨3, .unset, [], [], []⟩ ""
      (some []) (some [.frozenCircuit 7, .other 0]) =
    .error .constantIndexOutOfRange := rfl
